import Mathlib

/-!
Verification development for the TEProf2 core: the genomic interval index
(`genome_interval.py`), the TE annotation engine (`te_annotator.py`) and the
expression quantifier (`tpm_calculator.py`).

Modelling conventions:
* Python ints are `Int` (or `Nat` for lengths of lists); Python floats are `ℚ`.
* A pandas cell that may be NaN is `Option ℚ` / `Option String` with `none`
  playing the role of NaN; pandas `Series.sum` (skipna) is `psum`.
* Python dicts keyed by strings are association lists `List (String × α)`
  with dict-assignment semantics (`alistInsert` replaces in place).
* The `intervaltree.IntervalTree` per contig is modelled as the list of the
  intervals it stores, in insertion order; `tree.overlap(start, end)` is a
  filter with the half-open intersection condition `iv.start < end ∧
  start < iv.end`, which is exactly the predicate the library implements.
* Code that raises is `Except String _`; external collaborators (pysam) are
  parameters whose results are `Except String ℚ`, so that the source's
  `try/except` blocks can be translated faithfully.
-/

/-- Python `str.strip()` whitespace test (space, tab, newline, CR, VT, FF). -/
def isPyWS (c : Char) : Bool :=
  c == ' ' || c == '\t' || c == '\n' || c == '\r' || c == '\x0b' || c == '\x0c'

/-- `s.split(c)` on a character list: splits at every occurrence of `c`. -/
def splitOnChar (c : Char) : List Char → List (List Char)
  | [] => [[]]
  | x :: rest =>
    let r := splitOnChar c rest
    if x == c then [] :: r
    else
      match r with
      | [] => [[x]]
      | h :: t => (x :: h) :: t

/-- Python `item.strip()`: drop whitespace from both ends. -/
def pyStrip (cs : List Char) : List Char :=
  ((cs.dropWhile isPyWS).reverse.dropWhile isPyWS).reverse

/-- Python `value.strip(q)` for a single character `q`: drop all leading and
trailing occurrences of `q`. -/
def pyStripChar (q : Char) (cs : List Char) : List Char :=
  ((cs.dropWhile (fun c => c == q)).reverse.dropWhile (fun c => c == q)).reverse

/-- Lookup in an association list (first binding wins, as in a Python dict
where `alistInsert` keeps one binding per key). -/
def alistLookup {α : Type} : List (String × α) → String → Option α
  | [], _ => none
  | (k', v) :: rest, k => if k' = k then some v else alistLookup rest k

/-- Python dict assignment `d[k] = v`: replace the binding in place if the key
exists, otherwise append at the end (dicts preserve insertion order). -/
def alistInsert {α : Type} : List (String × α) → String → α → List (String × α)
  | [], k, v => [(k, v)]
  | (k', v') :: rest, k, v =>
    if k' = k then (k, v) :: rest else (k', v') :: alistInsert rest k v

/-- `parse_gtf_attributes` (te_annotator.py): split the attribute column on
`;`, strip each clause, split the clause on its first whitespace run, strip
`"` then `'` from the value; a clause with no value maps to `""`. -/
def parse_gtf_attributes (attr_string : String) : List (String × String) :=
  (splitOnChar (';') attr_string.data).foldl
    (fun attributes item =>
      let item := pyStrip item
      if item = [] then attributes
      else
        let key := item.takeWhile (fun c => !(isPyWS c))
        let rest := (item.dropWhile (fun c => !(isPyWS c))).dropWhile isPyWS
        if rest = [] then alistInsert attributes (String.mk key) ("")
        else
          alistInsert attributes (String.mk key)
            (String.mk (pyStripChar ('\'') (pyStripChar ('\"') rest))))
    []

/-- `safe_get_attribute` (te_annotator.py): dictionary get with a default
(the source's default argument is the sentinel `"None"`). -/
def safe_get_attribute (attributes : List (String × String)) (key : String)
    (dflt : String) : String :=
  (alistLookup attributes key).getD dflt

/-- `listStartsWith pat cs` is true when `pat` is an initial segment of `cs`. -/
def listStartsWith : List Char → List Char → Bool
  | [], _ => true
  | _ :: _, [] => false
  | p :: ps, c :: rest => p == c && listStartsWith ps rest

/-- Search for the regular expression `key "([^"]+)"` (as used by
`_load_gtf`'s `str.extract` in tpm_calculator.py) anywhere in the character
list, returning the first capture. -/
def searchAttrPattern (key : List Char) : List Char → Option (List Char)
  | [] => none
  | c :: rest =>
    let attempt :=
      if listStartsWith (key ++ [' ', '\"']) (c :: rest) then
        let after := (c :: rest).drop (key.length + 2)
        let captured := after.takeWhile (fun ch => !(ch == '\"'))
        match after.drop captured.length with
        | '\"' :: _ => if captured = [] then none else some captured
        | _ => none
      else none
    match attempt with
    | some cap => some cap
    | none => searchAttrPattern key rest

/-- `df["attribute"].str.extract(r'key "([^"]+)"')` for one cell: `none` is
pandas NaN (no match). -/
def strExtract (attr key : String) : Option String :=
  (searchAttrPattern key.data attr.data).map String.mk

/-- `GenomicInterval` (genome_interval.py): immutable value; coordinates are
half-open 0-based; the score is a Python float, modelled as `ℚ`. -/
structure GenomicInterval where
  chrom : String
  start : Int
  «end» : Int
  strand : String
  name : String
  score : ℚ
  metadata : List (String × String)
deriving DecidableEq, Repr

/-- `GenomicInterval.length` property: `end - start`. -/
def GenomicInterval.length (iv : GenomicInterval) : Int :=
  iv.«end» - iv.start

/-- `GenomicInterval.overlaps`: same contig and intersecting ranges. -/
def GenomicInterval.overlaps (a b : GenomicInterval) : Bool :=
  if a.chrom ≠ b.chrom then false
  else !(a.«end» ≤ b.start || a.start ≥ b.«end»)

/-- The strand codes accepted by `__post_init__`. -/
def strandValid (s : String) : Prop :=
  s = "+" ∨ s = "-" ∨ s = "."

instance (s : String) : Decidable (strandValid s) := by
  unfold strandValid; infer_instance

/-- Construction of a `GenomicInterval` through `__post_init__` validation:
negative start, `end ≤ start`, and unrecognized strand codes raise
`ValueError` (here `Except.error`); the checks run in the source's order. -/
def GenomicInterval.make (chrom : String) (start «end» : Int) (strand : String)
    (name : String) (score : ℚ) (metadata : List (String × String)) :
    Except String GenomicInterval :=
  if start < 0 then
    .error "Start position cannot be negative"
  else if «end» ≤ start then
    .error "End position must be greater than start position"
  else if strandValid strand then
    .ok { chrom, start, «end», strand, name, score, metadata }
  else
    .error "Invalid strand"

/-- Per-contig running statistics, as kept in `_contig_stats`. -/
structure ContigStats where
  count : Int
  total_bp : Int
deriving DecidableEq, Repr

/-- `GenomeIntervalHandler` state: `_intervals` maps a contig name to the
list of intervals its `IntervalTree` stores (insertion order), and
`_contig_stats` maps a contig name to its running statistics.  Both are
`defaultdict`s in the source; the lazy-creation semantics of `defaultdict`
access is modelled at each use site. -/
structure GenomeIntervalHandler where
  _intervals : List (String × List GenomicInterval)
  _contig_stats : List (String × ContigStats)
deriving DecidableEq, Repr

/-- `__init__`: both mappings start empty (the `validate` flag of the source
is stored but never consulted: `__post_init__` always validates). -/
def GenomeIntervalHandler.init : GenomeIntervalHandler :=
  { _intervals := [], _contig_stats := [] }

/-- `self._intervals[chrom].add(Interval(start, end, interval))`: defaultdict
access creates the tree on demand, then the interval is added. -/
def treeAdd (m : List (String × List GenomicInterval)) (chrom : String)
    (iv : GenomicInterval) : List (String × List GenomicInterval) :=
  match m with
  | [] => [(chrom, [iv])]
  | (k, tree) :: rest =>
    if k = chrom then (k, tree ++ [iv]) :: rest
    else (k, tree) :: treeAdd rest chrom iv

/-- `self._contig_stats[chrom]["count"] += 1; ... ["total_bp"] += length`:
defaultdict access creates the zero record on demand, then bumps it. -/
def statsBump (m : List (String × ContigStats)) (chrom : String) (len : Int) :
    List (String × ContigStats) :=
  match m with
  | [] => [(chrom, { count := 1, total_bp := len })]
  | (k, st) :: rest =>
    if k = chrom then
      (k, { count := st.count + 1, total_bp := st.total_bp + len }) :: rest
    else (k, st) :: statsBump rest chrom len

/-- `add_interval`: validates by constructing the `GenomicInterval` (which
raises before any state is touched), then stores it and updates the
statistics. -/
def GenomeIntervalHandler.add_interval (h : GenomeIntervalHandler)
    (chrom : String) (start «end» : Int) (strand : String) (name : String)
    (score : ℚ) (metadata : List (String × String)) :
    Except String (GenomicInterval × GenomeIntervalHandler) := do
  let interval ← GenomicInterval.make chrom start «end» strand name score metadata
  .ok (interval,
    { _intervals := treeAdd h._intervals chrom interval,
      _contig_stats := statsBump h._contig_stats chrom interval.length })

/-- Arguments of one `add_interval` call. -/
structure AddArgs where
  chrom : String
  start : Int
  «end» : Int
  strand : String
  name : String
  score : ℚ
  metadata : List (String × String)
deriving DecidableEq, Repr

/-- The `GenomicInterval` that a valid `AddArgs` produces. -/
def AddArgs.toInterval (a : AddArgs) : GenomicInterval :=
  { chrom := a.chrom, start := a.start, «end» := a.«end», strand := a.strand,
    name := a.name, score := a.score, metadata := a.metadata }

/-- One `add_interval` call applied to a handler state.  A call whose
validation raises leaves the handler unchanged (the exception fires before
any mutation; the caller catches it and moves on, as the spec's §7 allows). -/
def GenomeIntervalHandler.insertStep (h : GenomeIntervalHandler) (a : AddArgs) :
    GenomeIntervalHandler :=
  match h.add_interval a.chrom a.start a.«end» a.strand a.name a.score a.metadata with
  | .ok p => p.2
  | .error _ => h

/-- A handler populated by a sequence of `add_interval` calls. -/
def GenomeIntervalHandler.ofInserts (ops : List AddArgs) : GenomeIntervalHandler :=
  ops.foldl GenomeIntervalHandler.insertStep GenomeIntervalHandler.init

/-- All intervals stored in the handler, over all contigs. -/
def GenomeIntervalHandler.allIntervals (h : GenomeIntervalHandler) :
    List GenomicInterval :=
  h._intervals.foldr (fun p acc => p.2 ++ acc) []

/-- `find_overlaps`: `self._intervals.get(chrom, IntervalTree())` (never a
KeyError), empty-tree early return, `tree.overlap(start, end)` and the
optional strand filter.  The second component is the handler after the call
(the method performs no mutation; returning it makes that checkable). -/
def GenomeIntervalHandler.find_overlaps (h : GenomeIntervalHandler)
    (chrom : String) (start «end» : Int) (strand : Option String) :
    List GenomicInterval × GenomeIntervalHandler :=
  let tree := (alistLookup h._intervals chrom).getD []
  let result :=
    if tree = [] then []
    else
      let overlapping := tree.filter fun iv =>
        decide (iv.start < «end» ∧ start < iv.«end»)
      let intervals := overlapping
      match strand with
      | some s => intervals.filter fun iv => decide (iv.strand = s)
      | none => intervals
  (result, h)

/-- `get_contig_intervals`: all intervals of one contig, optionally filtered
by strand; empty list for an unknown contig. -/
def GenomeIntervalHandler.get_contig_intervals (h : GenomeIntervalHandler)
    (chrom : String) (strand : Option String) :
    List GenomicInterval × GenomeIntervalHandler :=
  let tree := (alistLookup h._intervals chrom).getD []
  let intervals := tree
  let result :=
    match strand with
    | some s => intervals.filter fun iv => decide (iv.strand = s)
    | none => intervals
  (result, h)

/-- `defaultdict.__getitem__` for `_intervals`: returns the existing tree, or
inserts and returns a fresh empty tree when the contig is missing. -/
def treeGetItem (m : List (String × List GenomicInterval)) (chrom : String) :
    List GenomicInterval × List (String × List GenomicInterval) :=
  match alistLookup m chrom with
  | some tree => (tree, m)
  | none => ([], m ++ [(chrom, [])])

/-- `has_contig`: `chrom in self._intervals and len(self._intervals[chrom]) > 0`.
The subscript is a real defaultdict access, so it is modelled as one; the
short-circuiting `and` guards it behind the membership test. -/
def GenomeIntervalHandler.has_contig (h : GenomeIntervalHandler)
    (chrom : String) : Bool × GenomeIntervalHandler :=
  if (alistLookup h._intervals chrom).isSome then
    let p := treeGetItem h._intervals chrom
    (decide (0 < p.1.length), { h with _intervals := p.2 })
  else (false, h)

/-- `get_contig_stats`: `self._contig_stats.get(chrom, {"count": 0,
"total_bp": 0})` — zeros for an unknown contig, never a KeyError. -/
def GenomeIntervalHandler.get_contig_stats (h : GenomeIntervalHandler)
    (chrom : String) : ContigStats × GenomeIntervalHandler :=
  ((alistLookup h._contig_stats chrom).getD { count := 0, total_bp := 0 }, h)

/-- `count_intervals`: total over all contigs when no contig is given,
otherwise the size of that contig's tree (`.get`, no KeyError). -/
def GenomeIntervalHandler.count_intervals (h : GenomeIntervalHandler)
    (chrom : Option String) : Nat × GenomeIntervalHandler :=
  let result :=
    match chrom with
    | none => (h._intervals.map fun p => p.2.length).sum
    | some c => ((alistLookup h._intervals c).getD []).length
  (result, h)

/-- The interval produced when `merge_intervals` merges `nxt` into `current`:
extended end, comma-joined names, max score, dict-merged metadata. -/
def mergedInterval (current nxt : GenomicInterval) : GenomicInterval :=
  { chrom := current.chrom, start := current.start,
    «end» := max current.«end» nxt.«end», strand := current.strand,
    name := current.name ++ "," ++ nxt.name,
    score := max current.score nxt.score,
    metadata := nxt.metadata.foldl (fun acc kv => alistInsert acc kv.1 kv.2)
      current.metadata }

/-- The merging loop of `merge_intervals`: `current` is merged with the next
interval whenever `next.start ≤ current.end + gap`. -/
def mergeLoop (gap : Int) (current : GenomicInterval) :
    List GenomicInterval → List GenomicInterval
  | [] => [current]
  | nxt :: rest =>
    if nxt.start ≤ current.«end» + gap then
      mergeLoop gap (mergedInterval current nxt) rest
    else current :: mergeLoop gap nxt rest

/-- The sort relation `key=lambda x: x.start` of `merge_intervals`. -/
def startLE (a b : GenomicInterval) : Prop :=
  a.start ≤ b.start

instance : DecidableRel startLE := fun a b =>
  inferInstanceAs (Decidable (a.start ≤ b.start))

instance : IsTotal GenomicInterval startLE :=
  ⟨fun a b => Int.le_total a.start b.start⟩

instance : IsTrans GenomicInterval startLE :=
  ⟨fun _ _ _ h1 h2 => le_trans h1 h2⟩

/-- `merge_intervals`: empty-tree and empty-selection early returns, sort by
start, then the merging loop seeded with the first interval. -/
def GenomeIntervalHandler.merge_intervals (h : GenomeIntervalHandler)
    (chrom : String) (strand : Option String) (gap : Int) :
    List GenomicInterval :=
  let tree := (alistLookup h._intervals chrom).getD []
  if tree = [] then []
  else
    let intervals := (h.get_contig_intervals chrom strand).1
    if intervals = [] then []
    else
      let sorted := List.insertionSort startLE intervals
      match sorted with
      | [] => []
      | current :: rest => mergeLoop gap current rest

/-- One row of a 9-column GTF table, as both `_read_gtf` (te_annotator.py)
and `_load_gtf` (tpm_calculator.py) read it. -/
structure GtfRow where
  seqname : String
  source : String
  feature : String
  start : Int
  «end» : Int
  score : String
  strand : String
  frame : String
  «attribute» : String
deriving DecidableEq, Repr

/-- One output row of `_annotate_transcript`. -/
structure AnnotationRecord where
  transcript_id : String
  gene_id : String
  gene_name : String
  chrom : String
  start : Int
  «end» : Int
  strand : String
  n_te_overlaps : Nat
  te_names : String
  has_te_promoter : Bool
deriving DecidableEq, Repr

/-- `_check_te_promoter` (te_annotator.py): the promoter region is
`[max(0, tss - window), tss)` on `"+"` and `[tss, tss + window)` otherwise;
the TE index is queried with the transcript's strand as filter and the flag
is `len(result) > 0`.  The source's default window is 2000 (its callers pass
no window); callers here pass the 2000 explicitly. -/
def TEAnnotator._check_te_promoter (rmsk_handler : GenomeIntervalHandler)
    (chrom : String) (tss : Int) (strand : String) (window : Int) : Bool :=
  let region : Int × Int :=
    if strand = "+" then (max 0 (tss - window), tss)
    else (tss, tss + window)
  let te_in_promoter :=
    (rmsk_handler.find_overlaps chrom region.1 region.2 (some strand)).1
  decide (0 < te_in_promoter.length)

/-- `_annotate_transcript` (te_annotator.py): `start`/`end` are taken from
the GTF row unchanged; attributes are parsed by `parse_gtf_attributes` (done
by `_read_gtf` in the source) and read through `safe_get_attribute`, whose
default is the sentinel `"None"`; TE overlaps are queried on the
transcript's own span and strand; the promoter check uses the source's
default window 2000. -/
def TEAnnotator._annotate_transcript (rmsk_handler : GenomeIntervalHandler)
    (row : GtfRow) : AnnotationRecord :=
  let chrom := row.seqname
  let start := row.start
  let e := row.«end»
  let strand := row.strand
  let attrs := parse_gtf_attributes row.«attribute»
  let transcript_id := safe_get_attribute attrs ("transcript_id") ("None")
  let gene_id := safe_get_attribute attrs ("gene_id") ("None")
  let gene_name := safe_get_attribute attrs ("gene_name") ("None")
  let te_overlaps := (rmsk_handler.find_overlaps chrom start e (some strand)).1
  { transcript_id, gene_id, gene_name, chrom, start, «end» := e, strand,
    n_te_overlaps := te_overlaps.length,
    te_names :=
      if te_overlaps = [] then ("None")
      else String.intercalate (",") (te_overlaps.map GenomicInterval.name),
    has_te_promoter := TEAnnotator._check_te_promoter rmsk_handler chrom start strand 2000 }

/-- One row of `self.transcripts` as built by `_load_gtf` (tpm_calculator.py):
`transcript_id`/`gene_id`/`gene_name` come from `str.extract` and are NaN
(`none`) when the attribute is absent; `length = end - start + 1`. -/
structure TranscriptRec where
  seqname : String
  start : Int
  «end» : Int
  strand : String
  «attribute» : String
  transcript_id : Option String
  gene_id : Option String
  gene_name : Option String
  length : ℚ
deriving DecidableEq, Repr

/-- `_load_gtf`: keep only `feature == "transcript"` rows, extract the three
identifier attributes by regex, compute the 1-based inclusive length. -/
def ExpressionQuantifier._load_gtf (rows : List GtfRow) : List TranscriptRec :=
  (rows.filter fun r => decide (r.feature = "transcript")).map fun r =>
    { seqname := r.seqname, start := r.start, «end» := r.«end»,
      strand := r.strand, «attribute» := r.«attribute»,
      transcript_id := strExtract r.«attribute» ("transcript_id"),
      gene_id := strExtract r.«attribute» ("gene_id"),
      gene_name := strExtract r.«attribute» ("gene_name"),
      length := ((r.«end» - r.start + 1 : Int) : ℚ) }

/-- The aligned-read source (pysam `AlignmentFile`) as the quantifier sees
it: `count` is `bam.count(contig, start, stop, read_callback)` and
`pileupCoverage` is the mean-depth computation over `bam.pileup` (including
its `positions == 0 → 0.0` case).  Either may raise, which the source
catches; `Except.error` models the raise. -/
structure BamModel where
  count : String → Int → Int → Except String ℚ
  pileupCoverage : String → Int → Int → Except String ℚ

/-- `_calculate_coverage`: the whole body is wrapped in `try/except` and a
failure yields `0.0`. -/
def ExpressionQuantifier._calculate_coverage (bam : BamModel) (chrom : String)
    (start «end» : Int) : ℚ :=
  match bam.pileupCoverage chrom start «end» with
  | .ok c => c
  | .error _ => 0

/-- The dict returned by `_quantify_transcript`. -/
structure TranscriptQuant where
  transcript_id : Option String
  gene_id : Option String
  gene_name : Option String
  chrom : String
  start : Int
  «end» : Int
  strand : String
  length : ℚ
  count : ℚ
  coverage : ℚ
deriving DecidableEq, Repr

/-- `_quantify_transcript`: converts the GTF start to 0-based
(`start = transcript["start"] - 1`), counts reads on `[start, end)` with the
count-specific `try/except` (a raise yields `count = 0`), and computes
coverage over the same region. -/
def ExpressionQuantifier._quantify_transcript (bam : BamModel)
    (t : TranscriptRec) : TranscriptQuant :=
  let chrom := t.seqname
  let start := t.start - 1
  let e := t.«end»
  let length := t.length
  let count :=
    match bam.count chrom start e with
    | .ok c => c
    | .error _ => 0
  let coverage := ExpressionQuantifier._calculate_coverage bam chrom start e
  { transcript_id := t.transcript_id, gene_id := t.gene_id,
    gene_name := t.gene_name, chrom, start, «end» := e, strand := t.strand,
    length, count, coverage }

/-- One row of the quantification DataFrame.  Rows appended by the
exception branch of `quantify_all` lack the positional and length columns,
which pandas fills with NaN (`none`). -/
structure QuantRow where
  transcript_id : Option String
  gene_id : Option String
  gene_name : Option String
  chrom : Option String
  start : Option Int
  «end» : Option Int
  strand : Option String
  length : Option ℚ
  count : ℚ
  coverage : ℚ
  tpm : Option ℚ
  fpkm : Option ℚ
deriving DecidableEq, Repr

/-- Pandas `Series.sum()` with the default `skipna=True`: NaN cells are
ignored. -/
def psum (l : List (Option ℚ)) : ℚ :=
  (l.filterMap id).sum

/-- NaN-propagating division of two float cells.  Pandas division by an
exact zero produces inf/NaN; none of the guarded source expressions divides
by zero, so collapsing that case into `none` is safe. -/
def pdiv (a b : Option ℚ) : Option ℚ :=
  match a, b with
  | some x, some y => if y = 0 then none else some (x / y)
  | _, _ => none

/-- NaN-propagating multiplication of two float cells. -/
def pmul (a b : Option ℚ) : Option ℚ :=
  match a, b with
  | some x, some y => some (x * y)
  | _, _ => none

/-- NumPy comparison `a > b` on a float cell: NaN compares False. -/
def npGt (a : Option ℚ) (b : ℚ) : Bool :=
  match a with
  | some x => decide (b < x)
  | none => false

/-- The `rpk` column: `df["count"] / (df["length"] / 1000.0)`. -/
def rowRpk (r : QuantRow) : Option ℚ :=
  pdiv (some r.count) (pdiv r.length (some 1000))

/-- `_calculate_normalized_expression`: computes the RPK column, sums it
(skipna), then overwrites the whole `tpm` column with
`(rpk / rpk_sum) * 1e6` when `rpk_sum > 0` and with `0.0` otherwise, and the
whole `fpkm` column with `rpk / (total_reads / 1e6)` when `total_reads > 0`
and with `0.0` otherwise. -/
def ExpressionQuantifier._calculate_normalized_expression
    (df : List QuantRow) : List QuantRow :=
  let rpk_sum := psum (df.map rowRpk)
  let total_reads := (df.map QuantRow.count).sum
  df.map fun r =>
    { r with
      tpm :=
        if 0 < rpk_sum then pmul (pdiv (rowRpk r) (some rpk_sum)) (some 1000000)
        else some 0,
      fpkm :=
        if 0 < total_reads then pdiv (rowRpk r) (some (total_reads / 1000000))
        else some 0 }

/-- `quantify_all`: per transcript, the `try` branch turns the
`_quantify_transcript` dict into a full row; the `except` branch appends the
zero placeholder, whose dict carries only the identifier, count, tpm, fpkm
and coverage keys, so its positional and length cells become NaN in the
DataFrame.  The `Except String Unit` input models whether the row's
processing raised past the inner handlers of `_quantify_transcript`.
Finally the normalization pass runs over the whole frame. -/
def quantifyAllRow (bam : BamModel)
    (p : TranscriptRec × Except String Unit) : QuantRow :=
  match p.2 with
  | .ok _ =>
    let q := ExpressionQuantifier._quantify_transcript bam p.1
    { transcript_id := q.transcript_id, gene_id := q.gene_id,
      gene_name := q.gene_name, chrom := some q.chrom,
      start := some q.start, «end» := some q.«end»,
      strand := some q.strand, length := some q.length,
      count := q.count, coverage := q.coverage,
      tpm := none, fpkm := none }
  | .error _ =>
    { transcript_id := p.1.transcript_id, gene_id := p.1.gene_id,
      gene_name := p.1.gene_name, chrom := none, start := none,
      «end» := none, strand := none, length := none,
      count := 0, coverage := 0, tpm := some 0, fpkm := some 0 }

/-- The loop body of `quantify_all` assembled over the whole input, followed
by the normalization pass. -/
def ExpressionQuantifier.quantify_all (bam : BamModel)
    (transcripts : List (TranscriptRec × Except String Unit)) : List QuantRow :=
  let results := transcripts.map (quantifyAllRow bam)
  ExpressionQuantifier._calculate_normalized_expression results

/-- `transcript_df.groupby("gene_id").agg({"count": "sum"})` for one gene
key: the `count` column is integer-valued, so a plain sum. -/
def geneCount (df : List QuantRow) (g : String) : ℚ :=
  ((df.filter fun r => decide (r.gene_id = some g)).map QuantRow.count).sum

/-- `transcript_df.groupby("gene_id").agg({"tpm": "sum"})` for one gene key:
a float sum, skipping NaN. -/
def geneTpm (df : List QuantRow) (g : String) : ℚ :=
  psum ((df.filter fun r => decide (r.gene_id = some g)).map QuantRow.tpm)

/-- One row of the `calculate_transcript_fraction` output: the transcript
row joined (merge how="left" on `gene_id`) with its gene totals and the two
fraction columns. -/
structure FracRow where
  base : QuantRow
  gene_count : Option ℚ
  gene_tpm : Option ℚ
  count_fraction : Option ℚ
  tpm_fraction : Option ℚ
deriving DecidableEq, Repr

/-- One output row of `calculate_transcript_fraction` for transcript row
`r` of frame `df`: the left-merge with the `groupby("gene_id")` totals (NaN
keys are dropped by groupby, so a NaN `gene_id` row joins to NaN totals),
then `np.where(total > 0, value / total, 0.0)` for both fractions — NaN
totals compare False and give `0.0`. -/
def fracRowOf (df : List QuantRow) (r : QuantRow) : FracRow :=
  let gc : Option ℚ :=
    match r.gene_id with
    | some g => some (geneCount df g)
    | none => none
  let gt : Option ℚ :=
    match r.gene_id with
    | some g => some (geneTpm df g)
    | none => none
  { base := r, gene_count := gc, gene_tpm := gt,
    count_fraction := if npGt gc 0 then pdiv (some r.count) gc else some 0,
    tpm_fraction := if npGt gt 0 then pdiv r.tpm gt else some 0 }

/-- `calculate_transcript_fraction`: every transcript row joined with its
gene totals and the two safe-division fraction columns. -/
def ExpressionQuantifier.calculate_transcript_fraction (df : List QuantRow) :
    List FracRow :=
  df.map (fracRowOf df)

/-! Concrete instances used by witnesses and counterexamples. -/

/-- One valid insertion, for witnesses. -/
def c1Ops : List AddArgs :=
  [{ chrom := "chr1", start := 1000, «end» := 2000, strand := "+",
     name := "TE1", score := 0, metadata := [] }]

/-- The interval produced by the insertion in `c1Ops`. -/
def chr1Interval : GenomicInterval :=
  { chrom := "chr1", start := 1000, «end» := 2000, strand := "+",
    name := "TE1", score := 0, metadata := [] }

/-- A TE index holding `[8500, 9000)` on `"scaffold_7"`, strand `"+"`. -/
def scaffoldHandler : GenomeIntervalHandler :=
  GenomeIntervalHandler.ofInserts
    [{ chrom := "scaffold_7", start := 8500, «end» := 9000, strand := "+",
       name := "TE1", score := 0, metadata := [] }]

/-- The two touching insertions of the C5 counterexample: `[0,5)` and
`[5,10)` on one contig do not overlap, yet merge joins them at gap 0. -/
def c5a : AddArgs :=
  { chrom := "c", start := 0, «end» := 5, strand := ".", name := "a",
    score := 0, metadata := [] }

/-- Second touching insertion for the C5 counterexample. -/
def c5b : AddArgs :=
  { chrom := "c", start := 5, «end» := 10, strand := ".", name := "b",
    score := 0, metadata := [] }

/-- The counterexample insertion sequence. -/
def c5AdjacentOps : List AddArgs := [c5a, c5b]

/-- A strictly separated insertion sequence (given out of start order). -/
def c5SeparatedOps : List AddArgs :=
  [{ chrom := "c", start := 7, «end» := 10, strand := ".", name := "b",
     score := 1, metadata := [] },
   { chrom := "c", start := 0, «end» := 5, strand := ".", name := "a",
     score := 2, metadata := [] }]

/-- First concrete quantified row for the C2 witness (count 1, length 1000). -/
def c2Row1 : QuantRow :=
  { transcript_id := some "T1", gene_id := some "G1", gene_name := some "N1",
    chrom := some "c", start := some 0, «end» := some 1000,
    strand := some "+", length := some 1000, count := 1, coverage := 0,
    tpm := none, fpkm := none }

/-- Second concrete quantified row for the C2 witness (count 3, length 2000). -/
def c2Row2 : QuantRow :=
  { transcript_id := some "T2", gene_id := some "G1", gene_name := some "N2",
    chrom := some "c", start := some 0, «end» := some 2000,
    strand := some "+", length := some 2000, count := 3, coverage := 0,
    tpm := none, fpkm := none }

/-- The concrete transcript set of the C2 witness. -/
def c2Rows : List QuantRow := [c2Row1, c2Row2]

/-- First concrete row for the C7 witness (tpm 600000 on gene G1). -/
def c7Row1 : QuantRow :=
  { transcript_id := some "T1", gene_id := some "G1", gene_name := some "N1",
    chrom := some "c", start := some 0, «end» := some 1000,
    strand := some "+", length := some 1000, count := 1, coverage := 0,
    tpm := some 600000, fpkm := some 1 }

/-- Second concrete row for the C7 witness (tpm 400000 on gene G1). -/
def c7Row2 : QuantRow :=
  { transcript_id := some "T2", gene_id := some "G1", gene_name := some "N2",
    chrom := some "c", start := some 0, «end» := some 2000,
    strand := some "+", length := some 2000, count := 3, coverage := 0,
    tpm := some 400000, fpkm := some 1 }

/-- The concrete quantified frame of the C7 witness. -/
def c7Rows : List QuantRow := [c7Row1, c7Row2]

/-- A read source whose pileup (coverage) computation raises while counting
succeeds with 50 reads. -/
def c6CovFailBam : BamModel :=
  { count := fun _ _ _ => .ok 50, pileupCoverage := fun _ _ _ => .error "pileup failed" }

/-- A well-formed loaded transcript (1-based `[1, 1000]`, length 1000). -/
def c6Transcript : TranscriptRec :=
  { seqname := "c", start := 1, «end» := 1000, strand := "+", «attribute» := "",
    transcript_id := some "T1", gene_id := some "G1", gene_name := some "N1",
    length := 1000 }

/-- A read source where both counting and pileup raise. -/
def c6BothFailBam : BamModel :=
  { count := fun _ _ _ => .error "count failed",
    pileupCoverage := fun _ _ _ => .error "pileup failed" }

/-- The one-transcript batch of the C6 witness. -/
def c6WitnessTs : List (TranscriptRec × Except String Unit) :=
  [(c6Transcript, .ok ())]

/-- A transcript row whose attribute string names a `transcript_id` but no
`gene_id` or `gene_name`. -/
def c8Row : GtfRow :=
  { seqname := "c", source := "src", feature := "transcript", start := 1,
    «end» := 100, score := ".", strand := "+", frame := ".",
    «attribute» := "transcript_id \"TX1\";" }

/-- A TE index holding the interval `[9, 10)` on contig `"c"`. -/
def c9Handler : GenomeIntervalHandler :=
  GenomeIntervalHandler.ofInserts
    [{ chrom := "c", start := 9, «end» := 10, strand := "+", name := "TE9",
       score := 0, metadata := [] }]

/-- A GTF transcript row with 1-based start 10: 0-based it covers
`[9, 20)`, which intersects the stored TE `[9, 10)`. -/
def c9Row : GtfRow :=
  { seqname := "c", source := "src", feature := "transcript", start := 10,
    «end» := 20, score := ".", strand := "+", frame := ".",
    «attribute» := "transcript_id \"T9\";" }

/-! Helper lemmas about the association-list primitives and handler state. -/

theorem alistLookup_treeAdd_ne (m : List (String × List GenomicInterval))
    (chrom c : String) (iv : GenomicInterval) (hne : c ≠ chrom) :
    alistLookup (treeAdd m chrom iv) c = alistLookup m c := by
  induction m with
  | nil => simp [treeAdd, alistLookup, Ne.symm hne]
  | cons p rest ih =>
    obtain ⟨k, tree⟩ := p
    by_cases hk : k = chrom
    · subst hk
      have hkc : ¬ k = c := fun hh => hne (hh ▸ rfl)
      simp [treeAdd, alistLookup, hkc]
    · simp only [treeAdd, if_neg hk, alistLookup]
      split <;> simp [ih]

theorem alistLookup_statsBump_ne (m : List (String × ContigStats))
    (chrom c : String) (len : Int) (hne : c ≠ chrom) :
    alistLookup (statsBump m chrom len) c = alistLookup m c := by
  induction m with
  | nil => simp [statsBump, alistLookup, Ne.symm hne]
  | cons p rest ih =>
    obtain ⟨k, st⟩ := p
    by_cases hk : k = chrom
    · subst hk
      have hkc : ¬ k = c := fun hh => hne (hh ▸ rfl)
      simp [statsBump, alistLookup, hkc]
    · simp only [statsBump, if_neg hk, alistLookup]
      split <;> simp [ih]

theorem insertStep_lookup_ne (h : GenomeIntervalHandler) (a : AddArgs)
    (c : String) (hne : a.chrom ≠ c) :
    alistLookup (h.insertStep a)._intervals c = alistLookup h._intervals c ∧
    alistLookup (h.insertStep a)._contig_stats c = alistLookup h._contig_stats c := by
  unfold GenomeIntervalHandler.insertStep GenomeIntervalHandler.add_interval
  cases hmk : GenomicInterval.make a.chrom a.start a.«end» a.strand a.name a.score a.metadata with
  | error e => exact ⟨rfl, rfl⟩
  | ok iv =>
    exact ⟨alistLookup_treeAdd_ne _ _ _ _ (Ne.symm hne),
      alistLookup_statsBump_ne _ _ _ _ (Ne.symm hne)⟩

theorem foldl_insertStep_lookup_ne (c : String) :
    ∀ (ops : List AddArgs) (h : GenomeIntervalHandler),
      (∀ a ∈ ops, a.chrom ≠ c) →
      alistLookup (ops.foldl GenomeIntervalHandler.insertStep h)._intervals c =
        alistLookup h._intervals c ∧
      alistLookup (ops.foldl GenomeIntervalHandler.insertStep h)._contig_stats c =
        alistLookup h._contig_stats c := by
  intro ops
  induction ops with
  | nil => intro h _; exact ⟨rfl, rfl⟩
  | cons a rest ih =>
    intro h hall
    rw [List.foldl_cons]
    have hstep := insertStep_lookup_ne h a c (hall a (List.mem_cons_self a rest))
    have hrest := ih (h.insertStep a) (fun x hx => hall x (List.mem_cons_of_mem a hx))
    exact ⟨hrest.1.trans hstep.1, hrest.2.trans hstep.2⟩

theorem ofInserts_lookup_none (ops : List AddArgs) (c : String)
    (hall : ∀ a ∈ ops, a.chrom ≠ c) :
    alistLookup (GenomeIntervalHandler.ofInserts ops)._intervals c = none ∧
    alistLookup (GenomeIntervalHandler.ofInserts ops)._contig_stats c = none := by
  have := foldl_insertStep_lookup_ne c ops GenomeIntervalHandler.init hall
  exact ⟨this.1, this.2⟩

/-- Claim C1: a contig name that was never inserted yields an empty result
from `find_overlaps` and zero statistics from `get_contig_stats`, for any
query coordinates and optional strand filter; both operations are total
functions of the state (no exception path exists in the embedding, matching
the `.get`-based source). -/
theorem c1_unknown_contig_safe :
    ∀ (ops : List AddArgs) (chrom : String) (start «end» : Int)
      (strand : Option String),
      (∀ a ∈ ops, a.chrom ≠ chrom) →
      ((GenomeIntervalHandler.ofInserts ops).find_overlaps chrom start «end» strand).1 = [] ∧
      ((GenomeIntervalHandler.ofInserts ops).get_contig_stats chrom).1 =
        { count := 0, total_bp := 0 } := by
  intro ops chrom s e strand hall
  obtain ⟨hi, hstat⟩ := ofInserts_lookup_none ops chrom hall
  constructor
  · simp [GenomeIntervalHandler.find_overlaps, hi]
  · simp [GenomeIntervalHandler.get_contig_stats, hstat]

/-- Witness for C1 at a concrete never-inserted contig name. -/
theorem c1_witness :
    ((GenomeIntervalHandler.ofInserts c1Ops).find_overlaps "chrX" 0 500 (some "+")).1 = [] ∧
    ((GenomeIntervalHandler.ofInserts c1Ops).get_contig_stats "chrX").1 =
      { count := 0, total_bp := 0 } :=
  c1_unknown_contig_safe c1Ops "chrX" 0 500 (some "+") (by decide)

/-! Validity of constructed intervals (claim C3). -/

theorem make_ok_props (chrom : String) (s e : Int) (str n : String) (sc : ℚ)
    (md : List (String × String)) (iv : GenomicInterval)
    (hmk : GenomicInterval.make chrom s e str n sc md = .ok iv) :
    0 ≤ iv.start ∧ iv.start < iv.«end» ∧ strandValid iv.strand := by
  unfold GenomicInterval.make at hmk
  split_ifs at hmk with h1 h2 h3 <;> cases hmk
  exact ⟨show (0 : Int) ≤ s by omega, show s < e by omega, h3⟩

theorem mem_foldr_treeAdd (m : List (String × List GenomicInterval))
    (c : String) (x iv : GenomicInterval) :
    iv ∈ (treeAdd m c x).foldr (fun p acc => p.2 ++ acc) [] ↔
      iv ∈ m.foldr (fun p acc => p.2 ++ acc) [] ∨ iv = x := by
  induction m with
  | nil => simp [treeAdd]
  | cons p rest ih =>
    obtain ⟨k, tree⟩ := p
    by_cases hk : k = c <;> simp [treeAdd, hk, ih] <;> tauto

theorem insertStep_valid_invariant (h : GenomeIntervalHandler) (a : AddArgs)
    (hinv : ∀ iv ∈ h.allIntervals,
      0 ≤ iv.start ∧ iv.start < iv.«end» ∧ strandValid iv.strand) :
    ∀ iv ∈ (h.insertStep a).allIntervals,
      0 ≤ iv.start ∧ iv.start < iv.«end» ∧ strandValid iv.strand := by
  intro iv hmem
  unfold GenomeIntervalHandler.insertStep GenomeIntervalHandler.add_interval at hmem
  revert hmem
  cases hmk : GenomicInterval.make a.chrom a.start a.«end» a.strand a.name a.score a.metadata with
  | error e => intro hmem; exact hinv iv hmem
  | ok nv =>
    intro hmem
    rcases (mem_foldr_treeAdd h._intervals a.chrom nv iv).mp hmem with hold | hnew
    · exact hinv iv hold
    · subst hnew
      exact make_ok_props _ _ _ _ _ _ _ _ hmk

theorem ofInserts_valid (ops : List AddArgs) :
    ∀ iv ∈ (GenomeIntervalHandler.ofInserts ops).allIntervals,
      0 ≤ iv.start ∧ iv.start < iv.«end» ∧ strandValid iv.strand := by
  unfold GenomeIntervalHandler.ofInserts
  have : ∀ (l : List AddArgs) (h : GenomeIntervalHandler),
      (∀ iv ∈ h.allIntervals,
        0 ≤ iv.start ∧ iv.start < iv.«end» ∧ strandValid iv.strand) →
      ∀ iv ∈ (l.foldl GenomeIntervalHandler.insertStep h).allIntervals,
        0 ≤ iv.start ∧ iv.start < iv.«end» ∧ strandValid iv.strand := by
    intro l
    induction l with
    | nil => intro h hinv; exact hinv
    | cons a rest ih =>
      intro h hinv
      rw [List.foldl_cons]
      exact ih _ (insertStep_valid_invariant h a hinv)
  refine this ops GenomeIntervalHandler.init ?_
  intro iv hmem
  simp [GenomeIntervalHandler.allIntervals, GenomeIntervalHandler.init] at hmem

/-- Claim C3: constructing a `GenomicInterval` succeeds exactly for
`start ≥ 0`, `end > start` and strand in `{+, -, .}`, and fails with a
validation error otherwise; consequently every interval stored by any
sequence of `add_interval` calls satisfies the invariant — no invalid
interval is ever stored in the index. -/
theorem c3_interval_validation :
    (∀ (chrom : String) (start «end» : Int) (strand name : String) (score : ℚ)
        (metadata : List (String × String)),
      (∃ iv, GenomicInterval.make chrom start «end» strand name score metadata = .ok iv) ↔
        (0 ≤ start ∧ start < «end» ∧ strandValid strand)) ∧
    (∀ (ops : List AddArgs) (iv : GenomicInterval),
      iv ∈ (GenomeIntervalHandler.ofInserts ops).allIntervals →
      0 ≤ iv.start ∧ iv.start < iv.«end» ∧ strandValid iv.strand) := by
  constructor
  · intro chrom s e strand name score metadata
    constructor
    · rintro ⟨iv, hiv⟩
      unfold GenomicInterval.make at hiv
      split_ifs at hiv with h1 h2 h3 <;> cases hiv
      exact ⟨by omega, by omega, h3⟩
    · rintro ⟨h1, h2, h3⟩
      refine ⟨{ chrom, start := s, «end» := e, strand, name, score, metadata }, ?_⟩
      unfold GenomicInterval.make
      rw [if_neg (by omega), if_neg (by omega), if_pos h3]
  · exact fun ops iv h => ofInserts_valid ops iv h

/-- Witness for C3: instantiate the stored-interval invariant on a handler
holding one concrete interval. -/
theorem c3_witness :
    0 ≤ chr1Interval.start ∧ chr1Interval.start < chr1Interval.«end» ∧
      strandValid chr1Interval.strand :=
  c3_interval_validation.2 c1Ops chr1Interval (by decide)

/-- Claim C10: the five read-only index operations return the handler state
unchanged — the contig map, every per-contig tree and every statistics entry
are identical before and after the call, for every state and every argument
(including contigs never inserted).  `has_contig` is the delicate one: its
defaultdict subscript is guarded by the membership test, so the
insert-on-miss branch of `treeGetItem` is never taken. -/
theorem c10_read_ops_preserve_state :
    ∀ (h : GenomeIntervalHandler) (chrom : String) (start «end» : Int)
      (strand : Option String) (copt : Option String),
      (h.find_overlaps chrom start «end» strand).2 = h ∧
      (h.get_contig_intervals chrom strand).2 = h ∧
      (h.get_contig_stats chrom).2 = h ∧
      (h.count_intervals copt).2 = h ∧
      (h.has_contig chrom).2 = h := by
  intro h chrom s e strand copt
  refine ⟨rfl, rfl, rfl, rfl, ?_⟩
  unfold GenomeIntervalHandler.has_contig
  split
  · rename_i hs
    unfold treeGetItem
    cases hl : alistLookup h._intervals chrom with
    | none => rw [hl] at hs; simp at hs
    | some tree => simp
  · rfl

/-! The promoter check (claim C4). -/

theorem get_contig_intervals_none (h : GenomeIntervalHandler) (chrom : String) :
    (h.get_contig_intervals chrom none).1 = (alistLookup h._intervals chrom).getD [] :=
  rfl

theorem find_overlaps_pos_iff (h : GenomeIntervalHandler) (chrom : String)
    (qs qe : Int) (str : String) :
    (0 < ((h.find_overlaps chrom qs qe (some str)).1).length) ↔
      ∃ iv ∈ (alistLookup h._intervals chrom).getD [],
        iv.strand = str ∧ iv.start < qe ∧ qs < iv.«end» := by
  by_cases ht : (alistLookup h._intervals chrom).getD [] = []
  · simp [GenomeIntervalHandler.find_overlaps, ht]
  · simp only [GenomeIntervalHandler.find_overlaps, if_neg ht]
    simp only [List.length_pos_iff_exists_mem, List.mem_filter, decide_eq_true_eq]
    constructor
    · rintro ⟨iv, ⟨⟨hmem, hov⟩, hstr⟩⟩
      exact ⟨iv, hmem, hstr, hov.1, hov.2⟩
    · rintro ⟨iv, hmem, hstr, hlt1, hlt2⟩
      exact ⟨iv, ⟨⟨hmem, hlt1, hlt2⟩, hstr⟩⟩

/-- Claim C4: `_check_te_promoter` queries the region
`[max(0, tss - window), tss)` on strand `"+"` and `[tss, tss + window)` on
strand `"-"`, and is true exactly when the TE index stores at least one
interval on that contig and same strand intersecting that region; with the
source's default window 2000, a `"+"` transcript at TSS 10000 on
`"scaffold_7"` against a TE `[8500, 9000)` `"+"` gives `has_te_promoter =
true`. -/
theorem c4_promoter_check :
    (∀ (h : GenomeIntervalHandler) (chrom : String) (tss window : Int),
      (TEAnnotator._check_te_promoter h chrom tss "+" window = true ↔
        ∃ iv ∈ (alistLookup h._intervals chrom).getD [],
          iv.strand = "+" ∧ iv.start < tss ∧ max 0 (tss - window) < iv.«end») ∧
      (TEAnnotator._check_te_promoter h chrom tss "-" window = true ↔
        ∃ iv ∈ (alistLookup h._intervals chrom).getD [],
          iv.strand = "-" ∧ iv.start < tss + window ∧ tss < iv.«end»)) ∧
    TEAnnotator._check_te_promoter scaffoldHandler "scaffold_7" 10000 "+" 2000 = true := by
  constructor
  · intro h chrom tss window
    constructor
    · have := find_overlaps_pos_iff h chrom (max 0 (tss - window)) tss "+"
      simpa [TEAnnotator._check_te_promoter] using this
    · have := find_overlaps_pos_iff h chrom tss (tss + window) "-"
      simpa [TEAnnotator._check_te_promoter,
        show ¬("-" : String) = "+" by decide] using this
  · decide

/-! Merge of separated intervals (claim C5). -/

theorem alistLookup_treeAdd_self (m : List (String × List GenomicInterval))
    (c : String) (iv : GenomicInterval) :
    alistLookup (treeAdd m c iv) c = some ((alistLookup m c).getD [] ++ [iv]) := by
  induction m with
  | nil => simp [treeAdd, alistLookup]
  | cons p rest ih =>
    obtain ⟨k, tree⟩ := p
    by_cases hk : k = c <;> simp [treeAdd, alistLookup, hk, ih]

theorem insertStep_lookup_self (h : GenomeIntervalHandler) (a : AddArgs)
    (hmk : GenomicInterval.make a.chrom a.start a.«end» a.strand a.name a.score
      a.metadata = .ok a.toInterval) :
    alistLookup (h.insertStep a)._intervals a.chrom =
      some ((alistLookup h._intervals a.chrom).getD [] ++ [a.toInterval]) := by
  unfold GenomeIntervalHandler.insertStep GenomeIntervalHandler.add_interval
  cases hmk2 : GenomicInterval.make a.chrom a.start a.«end» a.strand a.name a.score a.metadata with
  | error e => rw [hmk2] at hmk; cases hmk
  | ok iv =>
    rw [hmk2] at hmk
    injection hmk with hiv
    subst hiv
    exact alistLookup_treeAdd_self _ _ _

theorem make_ok_of_valid (a : AddArgs) (h0 : 0 ≤ a.start)
    (hlt : a.start < a.«end») (hstr : strandValid a.strand) :
    GenomicInterval.make a.chrom a.start a.«end» a.strand a.name a.score
      a.metadata = .ok a.toInterval := by
  unfold GenomicInterval.make AddArgs.toInterval
  rw [if_neg (by omega), if_neg (by omega), if_pos hstr]

theorem foldl_insertStep_tree_eq (c : String) :
    ∀ (ops : List AddArgs) (h : GenomeIntervalHandler),
      (∀ a ∈ ops, a.chrom = c ∧ 0 ≤ a.start ∧ a.start < a.«end» ∧ strandValid a.strand) →
      (alistLookup (ops.foldl GenomeIntervalHandler.insertStep h)._intervals c).getD [] =
        (alistLookup h._intervals c).getD [] ++ ops.map AddArgs.toInterval := by
  intro ops
  induction ops with
  | nil => intro h _; simp
  | cons a rest ih =>
    intro h hall
    obtain ⟨hc, h0, hlt, hstr⟩ := hall a (List.mem_cons_self a rest)
    rw [List.foldl_cons, List.map_cons,
      ih _ (fun x hx => hall x (List.mem_cons_of_mem a hx))]
    have hself := insertStep_lookup_self h a (make_ok_of_valid a h0 hlt hstr)
    rw [hc] at hself
    rw [hself]
    simp

theorem ofInserts_tree_eq (ops : List AddArgs) (c : String)
    (hall : ∀ a ∈ ops, a.chrom = c ∧ 0 ≤ a.start ∧ a.start < a.«end» ∧
      strandValid a.strand) :
    (alistLookup (GenomeIntervalHandler.ofInserts ops)._intervals c).getD [] =
      ops.map AddArgs.toInterval := by
  have := foldl_insertStep_tree_eq c ops GenomeIntervalHandler.init hall
  simpa [GenomeIntervalHandler.init, alistLookup] using this

theorem mergeLoop_noop (gap : Int) :
    ∀ (rest : List GenomicInterval) (current : GenomicInterval),
      List.Chain (fun a b => a.«end» + gap < b.start) current rest →
      mergeLoop gap current rest = current :: rest := by
  intro rest
  induction rest with
  | nil => intro c _; rfl
  | cons nxt rest' ih =>
    intro c hchain
    cases hchain with
    | cons hab hrest =>
      unfold mergeLoop
      rw [if_neg (by omega), ih nxt hrest]

/-- Counterexample to claim C5 as stated: the two inserted intervals are
pairwise non-overlapping (by the source's own `overlaps`, in both orders),
yet `merge_intervals` with gap 0 returns one interval instead of the two
unchanged — adjacent intervals (`next.start ≤ current.end + 0`) are merged. -/
theorem c5_counterexample :
    GenomicInterval.overlaps c5a.toInterval c5b.toInterval = false ∧
    GenomicInterval.overlaps c5b.toInterval c5a.toInterval = false ∧
    c5AdjacentOps.length = 2 ∧
    ((GenomeIntervalHandler.ofInserts c5AdjacentOps).merge_intervals "c" none 0).length = 1 := by
  decide

/-- Claim C5 (amended): for every sequence of valid insertions on one contig
whose intervals are pairwise separated (each pair non-overlapping and
non-adjacent: one ends strictly before the other starts), `merge_intervals`
with gap 0 returns exactly those intervals unchanged — a permutation of the
inserted intervals of the same length, ordered by ascending start. -/
theorem c5_merge_separated :
    ∀ (ops : List AddArgs) (c : String),
      (∀ a ∈ ops, a.chrom = c ∧ 0 ≤ a.start ∧ a.start < a.«end» ∧
        strandValid a.strand) →
      List.Pairwise (fun a b : AddArgs => a.«end» < b.start ∨ b.«end» < a.start) ops →
      ((GenomeIntervalHandler.ofInserts ops).merge_intervals c none 0).Perm
          (ops.map AddArgs.toInterval) ∧
        List.Pairwise startLE
          ((GenomeIntervalHandler.ofInserts ops).merge_intervals c none 0) ∧
        ((GenomeIntervalHandler.ofInserts ops).merge_intervals c none 0).length =
          ops.length := by
  intro ops c hall hsep
  have htree := ofInserts_tree_eq ops c hall
  by_cases hnil : ops.map AddArgs.toInterval = []
  · have hops : ops = [] := List.map_eq_nil_iff.mp hnil
    subst hops
    simp [GenomeIntervalHandler.merge_intervals, htree]
  · have hsepStored : List.Pairwise
        (fun a b : GenomicInterval => a.«end» < b.start ∨ b.«end» < a.start)
        (ops.map AddArgs.toInterval) :=
      List.pairwise_map.mpr hsep
    have hsymm : Symmetric
        (fun a b : GenomicInterval => a.«end» < b.start ∨ b.«end» < a.start) :=
      fun a b hab => hab.elim Or.inr Or.inl
    have hperm : (List.insertionSort startLE (ops.map AddArgs.toInterval)).Perm
        (ops.map AddArgs.toInterval) := List.perm_insertionSort _ _
    have hsorted : List.Pairwise startLE
        (List.insertionSort startLE (ops.map AddArgs.toInterval)) :=
      List.sorted_insertionSort _ _
    have hsepSorted : List.Pairwise
        (fun a b : GenomicInterval => a.«end» < b.start ∨ b.«end» < a.start)
        (List.insertionSort startLE (ops.map AddArgs.toInterval)) :=
      (@List.Perm.pairwise_iff _
        (fun a b : GenomicInterval => a.«end» < b.start ∨ b.«end» < a.start)
        (fun hab => hab.elim Or.inr Or.inl) _ _ hperm).mpr hsepStored
    have hvalid : ∀ x ∈ List.insertionSort startLE (ops.map AddArgs.toInterval),
        x.start < x.«end» := by
      intro x hx
      have hx2 : x ∈ ops.map AddArgs.toInterval := hperm.mem_iff.mp hx
      obtain ⟨a, ha, rfl⟩ := List.mem_map.mp hx2
      exact (hall a ha).2.2.1
    have hchainRel : List.Pairwise
        (fun a b : GenomicInterval => a.«end» + 0 < b.start)
        (List.insertionSort startLE (ops.map AddArgs.toInterval)) := by
      refine (hsorted.and hsepSorted).imp_of_mem ?_
      intro a b ha hb hr
      obtain ⟨hle, hsepab⟩ := hr
      have hbv := hvalid b hb
      unfold startLE at hle
      rcases hsepab with h1 | h2
      · omega
      · omega
    cases hs : List.insertionSort startLE (ops.map AddArgs.toInterval) with
    | nil =>
      rw [hs] at hperm
      exact absurd hperm.symm.eq_nil hnil
    | cons cur rest =>
      rw [hs] at hperm hsorted hchainRel
      have hloop : mergeLoop 0 cur rest = cur :: rest :=
        mergeLoop_noop 0 rest cur hchainRel.chain'
      have hmerge : (GenomeIntervalHandler.ofInserts ops).merge_intervals c none 0 =
          cur :: rest := by
        simp only [GenomeIntervalHandler.merge_intervals, get_contig_intervals_none,
          htree, if_neg hnil]
        rw [hs]
        exact hloop
      rw [hmerge]
      exact ⟨hperm, hsorted, by
        have := hperm.length_eq
        simpa using this⟩

/-- Witness for the amended C5 at a concrete separated insertion sequence. -/
theorem c5_witness :
    ((GenomeIntervalHandler.ofInserts c5SeparatedOps).merge_intervals "c" none 0).Perm
        (c5SeparatedOps.map AddArgs.toInterval) ∧
      List.Pairwise startLE
        ((GenomeIntervalHandler.ofInserts c5SeparatedOps).merge_intervals "c" none 0) ∧
      ((GenomeIntervalHandler.ofInserts c5SeparatedOps).merge_intervals "c" none 0).length =
        c5SeparatedOps.length :=
  c5_merge_separated c5SeparatedOps "c" (by decide) (by decide)

/-! TPM normalization (claim C2). -/

theorem psum_cons_some (v : ℚ) (L : List (Option ℚ)) :
    psum (some v :: L) = v + psum L := by
  simp [psum]

theorem psum_cons_none (L : List (Option ℚ)) :
    psum (none :: L) = psum L := by
  simp [psum]

theorem psum_map_some {α : Type} (l : List α) (g : α → ℚ) :
    psum (l.map fun x => some (g x)) = (l.map g).sum := by
  induction l with
  | nil => rfl
  | cons x xs ih =>
    rw [List.map_cons, psum_cons_some, ih, List.map_cons, List.sum_cons]

theorem length_getD_pos (r : QuantRow) (h : 0 < r.length.getD 0) :
    ∃ l, r.length = some l ∧ 0 < l := by
  cases hl : r.length with
  | none => rw [hl] at h; simp at h
  | some l => rw [hl] at h; exact ⟨l, rfl, by simpa using h⟩

theorem rowRpk_eq (r : QuantRow) (l : ℚ) (hl : r.length = some l) (hl0 : l ≠ 0) :
    rowRpk r = some (r.count / (l / 1000)) := by
  have h1000 : (1000 : ℚ) ≠ 0 := by norm_num
  have hdiv : l / 1000 ≠ 0 := div_ne_zero hl0 h1000
  simp [rowRpk, pdiv, hl, h1000, hdiv]

theorem list_sum_pos_of_mem :
    ∀ (l : List ℚ), (∀ x ∈ l, 0 ≤ x) → ∀ x, x ∈ l → 0 < x → 0 < l.sum := by
  intro l
  induction l with
  | nil => intro _ x hx _; cases hx
  | cons y ys ih =>
    intro hnn x hx hxpos
    rcases List.mem_cons.mp hx with rfl | hmem
    · have h2 : 0 ≤ ys.sum :=
        List.sum_nonneg fun z hz => hnn z (List.mem_cons_of_mem x hz)
      rw [List.sum_cons]
      linarith
    · have hy : 0 ≤ y := hnn y (List.mem_cons_self y ys)
      have h2 := ih (fun z hz => hnn z (List.mem_cons_of_mem y hz)) x hmem hxpos
      rw [List.sum_cons]
      linarith

theorem psum_rowRpk (rows : List QuantRow)
    (h1 : ∀ r ∈ rows, 0 < r.length.getD 0) :
    psum (rows.map rowRpk) =
      (rows.map fun r => r.count / (r.length.getD 0 / 1000)).sum := by
  induction rows with
  | nil => rfl
  | cons r rs ih =>
    obtain ⟨l, hl, hl0⟩ := length_getD_pos r (h1 r (List.mem_cons_self r rs))
    rw [List.map_cons, rowRpk_eq r l hl (ne_of_gt hl0), psum_cons_some,
      ih (fun x hx => h1 x (List.mem_cons_of_mem r hx)), List.map_cons,
      List.sum_cons, hl]
    simp

/-- Claim C2: in the normalization pass, each transcript's TPM equals
`(RPK / Σ RPK) × 1e6` (`RPK = count / (length / 1000)`); with positive
lengths and nonnegative counts, any transcript set containing a nonzero
count has TPMs summing exactly to 1e6 (exact in `ℚ`, "within floating
tolerance" in the source's floats), and when `Σ RPK = 0` every TPM is 0
with no division performed. -/
theorem c2_tpm_normalization :
    ∀ rows : List QuantRow,
      (∀ r ∈ rows, 0 < r.length.getD 0) →
      (∀ r ∈ rows, 0 ≤ r.count) →
      (∀ (i : Nat) (r : QuantRow) (l : ℚ), rows[i]? = some r → r.length = some l →
          ((ExpressionQuantifier._calculate_normalized_expression rows)[i]?).map
              QuantRow.tpm =
            some (some (if 0 < psum (rows.map rowRpk) then
              r.count / (l / 1000) / psum (rows.map rowRpk) * 1000000 else 0))) ∧
      ((∃ r ∈ rows, r.count ≠ 0) →
        psum ((ExpressionQuantifier._calculate_normalized_expression rows).map
          QuantRow.tpm) = 1000000) ∧
      (psum (rows.map rowRpk) = 0 →
        ∀ o ∈ ExpressionQuantifier._calculate_normalized_expression rows,
          o.tpm = some 0) := by
  intro rows h1 h2
  have hout : ExpressionQuantifier._calculate_normalized_expression rows =
      rows.map fun r =>
        { r with
          tpm := if 0 < psum (rows.map rowRpk) then
              pmul (pdiv (rowRpk r) (some (psum (rows.map rowRpk)))) (some 1000000)
            else some 0,
          fpkm := if 0 < (rows.map QuantRow.count).sum then
              pdiv (rowRpk r) (some ((rows.map QuantRow.count).sum / 1000000))
            else some 0 } := rfl
  have htpmF : ∀ r ∈ rows, ∀ l : ℚ, r.length = some l →
      (if 0 < psum (rows.map rowRpk) then
          pmul (pdiv (rowRpk r) (some (psum (rows.map rowRpk)))) (some 1000000)
        else some 0) =
        some (if 0 < psum (rows.map rowRpk) then
          r.count / (l / 1000) / psum (rows.map rowRpk) * 1000000 else 0) := by
    intro r hr l hl
    by_cases hpos : 0 < psum (rows.map rowRpk)
    · have hl0 : l ≠ 0 := by
        obtain ⟨l', hl', hl'0⟩ := length_getD_pos r (h1 r hr)
        rw [hl] at hl'
        cases hl'
        exact ne_of_gt hl'0
      rw [if_pos hpos, if_pos hpos, rowRpk_eq r l hl hl0]
      simp [pdiv, pmul, ne_of_gt hpos]
    · rw [if_neg hpos, if_neg hpos]
  refine ⟨?_, ?_, ?_⟩
  · intro i r l hget hl
    have hmem : r ∈ rows := List.getElem?_mem hget
    rw [hout, List.getElem?_map, hget]
    simpa using htpmF r hmem l hl
  · rintro ⟨r0, hr0, hc0⟩
    have hsum := psum_rowRpk rows h1
    have hnn : ∀ v ∈ rows.map fun r => r.count / (r.length.getD 0 / 1000), 0 ≤ v := by
      intro v hv
      obtain ⟨r, hr, rfl⟩ := List.mem_map.mp hv
      have := h1 r hr
      have := h2 r hr
      positivity
    have hv0 : 0 < r0.count / (r0.length.getD 0 / 1000) := by
      have hlp := h1 r0 hr0
      have hcp : 0 < r0.count := lt_of_le_of_ne (h2 r0 hr0) (Ne.symm hc0)
      positivity
    have hSpos : 0 < psum (rows.map rowRpk) := by
      rw [hsum]
      exact list_sum_pos_of_mem _ hnn _
        (List.mem_map_of_mem (fun r => r.count / (r.length.getD 0 / 1000)) hr0) hv0
    have hmapeq :
        (ExpressionQuantifier._calculate_normalized_expression rows).map QuantRow.tpm =
          rows.map fun r =>
            some ((r.count / (r.length.getD 0 / 1000)) *
              (1000000 / psum (rows.map rowRpk))) := by
      rw [hout, List.map_map]
      refine List.map_congr_left ?_
      intro r hr
      obtain ⟨l, hl, hl0⟩ := length_getD_pos r (h1 r hr)
      have := htpmF r hr l hl
      simp only [Function.comp]
      rw [this, if_pos hSpos, hl]
      congr 1
      simp only [Option.getD_some]
      field_simp
    rw [hmapeq, psum_map_some, List.sum_map_mul_right, ← hsum]
    field_simp
  · intro hS0 o ho
    rw [hout] at ho
    obtain ⟨r, hr, rfl⟩ := List.mem_map.mp ho
    simp [hS0]

/-- Witness for C2: on the concrete two-transcript set with a nonzero count,
the normalized TPMs sum to exactly 1e6. -/
theorem c2_witness :
    psum ((ExpressionQuantifier._calculate_normalized_expression c2Rows).map
      QuantRow.tpm) = 1000000 :=
  (c2_tpm_normalization c2Rows (by decide) (by decide)).2.1
    ⟨c2Row1, by decide, by decide⟩

/-! Transcript fractions (claim C7). -/

theorem npGt_some (x b : ℚ) : npGt (some x) b = decide (b < x) := rfl

theorem fracRowOf_base (df : List QuantRow) (r : QuantRow) :
    (fracRowOf df r).base = r := rfl

theorem fracRowOf_tpm_fraction_of_gene (df : List QuantRow) (r : QuantRow)
    (g : String) (hg : r.gene_id = some g) :
    (fracRowOf df r).tpm_fraction =
      if npGt (some (geneTpm df g)) 0 then pdiv r.tpm (some (geneTpm df g))
      else some 0 := by
  unfold fracRowOf
  rw [hg]

theorem fracRowOf_count_fraction_of_gene (df : List QuantRow) (r : QuantRow)
    (g : String) (hg : r.gene_id = some g) :
    (fracRowOf df r).count_fraction =
      if npGt (some (geneCount df g)) 0 then pdiv (some r.count) (some (geneCount df g))
      else some 0 := by
  unfold fracRowOf
  rw [hg]

theorem filter_map_comm {α β : Type} (l : List α) (f : α → β) (p : β → Bool) :
    (l.map f).filter p = (l.filter fun x => p (f x)).map f := by
  induction l with
  | nil => rfl
  | cons x xs ih =>
    by_cases hp : p (f x) = true <;>
      simp [List.filter_cons, List.map_cons, hp, ih]

theorem psum_map_pdiv_const (l : List (Option ℚ)) (T : ℚ) (hT : T ≠ 0) :
    psum (l.map fun x => pdiv x (some T)) = psum l / T := by
  induction l with
  | nil => simp [psum]
  | cons x xs ih =>
    cases x with
    | none =>
      rw [List.map_cons, show pdiv none (some T) = none from rfl,
        psum_cons_none, psum_cons_none, ih]
    | some v =>
      rw [List.map_cons, show pdiv (some v) (some T) = some (v / T) from by
          simp [pdiv, hT],
        psum_cons_some, psum_cons_some, ih, add_div]

/-- Claim C7: for every input frame and every gene key, the transcripts of a
gene with positive TPM total have `tpm_fraction` summing exactly to 1; and
whenever a gene's total (TPM or count) is zero, the corresponding fraction
of each of its transcripts is 0 — the division is guarded, never taken. -/
theorem c7_transcript_fraction :
    ∀ (df : List QuantRow) (g : String),
      (0 < geneTpm df g →
        psum (((ExpressionQuantifier.calculate_transcript_fraction df).filter
            fun o => decide (o.base.gene_id = some g)).map FracRow.tpm_fraction) = 1) ∧
      (geneTpm df g = 0 →
        ∀ o ∈ ExpressionQuantifier.calculate_transcript_fraction df,
          o.base.gene_id = some g → o.tpm_fraction = some 0) ∧
      (geneCount df g = 0 →
        ∀ o ∈ ExpressionQuantifier.calculate_transcript_fraction df,
          o.base.gene_id = some g → o.count_fraction = some 0) := by
  intro df g
  have h1 : ExpressionQuantifier.calculate_transcript_fraction df =
      df.map (fracRowOf df) := rfl
  refine ⟨?_, ?_, ?_⟩
  · intro hT
    rw [h1, filter_map_comm, List.map_map]
    have h2 : ∀ r ∈ df.filter fun x =>
          decide ((fracRowOf df x).base.gene_id = some g),
        (FracRow.tpm_fraction ∘ fracRowOf df) r =
          pdiv r.tpm (some (geneTpm df g)) := by
      intro r hr
      have hg : r.gene_id = some g :=
        of_decide_eq_true (List.mem_filter.mp hr).2
      simp only [Function.comp]
      rw [fracRowOf_tpm_fraction_of_gene df r g hg, npGt_some,
        if_pos (decide_eq_true hT)]
    rw [List.map_congr_left h2]
    have h3 : (df.filter fun x =>
        decide ((fracRowOf df x).base.gene_id = some g)) =
          df.filter fun r => decide (r.gene_id = some g) := rfl
    rw [h3,
      show (df.filter fun r => decide (r.gene_id = some g)).map
          (fun r => pdiv r.tpm (some (geneTpm df g))) =
        ((df.filter fun r => decide (r.gene_id = some g)).map QuantRow.tpm).map
          (fun x => pdiv x (some (geneTpm df g))) from by rw [List.map_map]; rfl,
      psum_map_pdiv_const _ _ (ne_of_gt hT)]
    exact div_self (ne_of_gt hT)
  · intro hT0 o ho hgid
    rw [h1] at ho
    obtain ⟨r, hr, rfl⟩ := List.mem_map.mp ho
    have hg : r.gene_id = some g := hgid
    rw [fracRowOf_tpm_fraction_of_gene df r g hg, hT0, npGt_some]
    simp
  · intro hC0 o ho hgid
    rw [h1] at ho
    obtain ⟨r, hr, rfl⟩ := List.mem_map.mp ho
    have hg : r.gene_id = some g := hgid
    rw [fracRowOf_count_fraction_of_gene df r g hg, hC0, npGt_some]
    simp

/-- Witness for C7: the two transcripts of gene `G1` (total TPM 1e6 > 0)
have `tpm_fraction` summing to 1. -/
theorem c7_witness :
    psum (((ExpressionQuantifier.calculate_transcript_fraction c7Rows).filter
        fun o => decide (o.base.gene_id = some "G1")).map FracRow.tpm_fraction) = 1 :=
  (c7_transcript_fraction c7Rows "G1").1 (by
    norm_num [geneTpm, c7Rows, c7Row1, c7Row2, psum, List.filterMap_cons,
      List.sum_cons, id])

/-! Per-transcript failure handling in quantification (claim C6). -/

/-- Counterexample to claim C6 as stated: the coverage computation fails
for this transcript (the pileup raises), yet its final expression record is
not zero-valued — counting succeeded, so `count = 50` and `tpm = 1e6`, not
0.  Each inner `try/except` zeroes only its own quantity. -/
theorem c6_counterexample :
    c6CovFailBam.pileupCoverage "c" 0 1000 = .error "pileup failed" ∧
    ((ExpressionQuantifier.quantify_all c6CovFailBam [(c6Transcript, .ok ())])[0]?).map
        (fun r => (r.count, r.coverage, r.tpm)) = some (50, 0, some 1000000) := by
  refine ⟨rfl, ?_⟩
  norm_num [ExpressionQuantifier.quantify_all, quantifyAllRow,
    ExpressionQuantifier._quantify_transcript, ExpressionQuantifier._calculate_coverage,
    ExpressionQuantifier._calculate_normalized_expression, rowRpk, psum, pdiv, pmul,
    c6CovFailBam, c6Transcript, List.filterMap_cons, List.filterMap_nil, id,
    List.sum_cons, List.sum_nil]

/-- Claim C6 (amended): when both counting and coverage computation fail
for a transcript (with positive length), that transcript's final record is
zero-valued — `count = 0`, `coverage = 0.0`, `tpm = 0.0`, `fpkm = 0.0` —
and processing continues: the output has exactly one record per input
transcript, the batch is not aborted. -/
theorem c6_zero_record_on_failure :
    ∀ (bam : BamModel) (ts : List (TranscriptRec × Except String Unit))
      (i : Nat) (t : TranscriptRec) (e1 e2 : String),
      ts[i]? = some (t, .ok ()) →
      bam.count t.seqname (t.start - 1) t.«end» = .error e1 →
      bam.pileupCoverage t.seqname (t.start - 1) t.«end» = .error e2 →
      0 < t.length →
      (ExpressionQuantifier.quantify_all bam ts).length = ts.length ∧
      ∃ row, (ExpressionQuantifier.quantify_all bam ts)[i]? = some row ∧
        row.count = 0 ∧ row.coverage = 0 ∧ row.tpm = some 0 ∧ row.fpkm = some 0 := by
  intro bam ts i t e1 e2 hget hcount hcov hlen
  have hrows : (ts.map (quantifyAllRow bam))[i]? =
      some (quantifyAllRow bam (t, .ok ())) := by
    rw [List.getElem?_map, hget]
    rfl
  have hcount0 : (quantifyAllRow bam (t, .ok ())).count = 0 := by
    simp [quantifyAllRow, ExpressionQuantifier._quantify_transcript, hcount]
  have hcov0 : (quantifyAllRow bam (t, .ok ())).coverage = 0 := by
    simp [quantifyAllRow, ExpressionQuantifier._quantify_transcript,
      ExpressionQuantifier._calculate_coverage, hcov]
  have hlen0 : (quantifyAllRow bam (t, .ok ())).length = some t.length := by
    simp [quantifyAllRow, ExpressionQuantifier._quantify_transcript]
  have h1000 : (1000 : ℚ) ≠ 0 := by norm_num
  have hld : t.length / 1000 ≠ 0 := div_ne_zero (ne_of_gt hlen) h1000
  have hrpk : rowRpk (quantifyAllRow bam (t, .ok ())) = some 0 := by
    unfold rowRpk
    rw [hcount0, hlen0]
    simp [pdiv, h1000, hld]
  constructor
  · simp [ExpressionQuantifier.quantify_all,
      ExpressionQuantifier._calculate_normalized_expression]
  · have hout : (ExpressionQuantifier.quantify_all bam ts)[i]? =
        some { quantifyAllRow bam (t, .ok ()) with
          tpm := if 0 < psum ((ts.map (quantifyAllRow bam)).map rowRpk) then
              pmul (pdiv (rowRpk (quantifyAllRow bam (t, .ok ())))
                (some (psum ((ts.map (quantifyAllRow bam)).map rowRpk)))) (some 1000000)
            else some 0,
          fpkm := if 0 < ((ts.map (quantifyAllRow bam)).map QuantRow.count).sum then
              pdiv (rowRpk (quantifyAllRow bam (t, .ok ())))
                (some (((ts.map (quantifyAllRow bam)).map QuantRow.count).sum / 1000000))
            else some 0 } := by
      unfold ExpressionQuantifier.quantify_all
        ExpressionQuantifier._calculate_normalized_expression
      rw [List.getElem?_map, hrows]
      rfl
    refine ⟨_, hout, hcount0, hcov0, ?_, ?_⟩
    · by_cases hS : 0 < psum ((ts.map (quantifyAllRow bam)).map rowRpk)
      · rw [if_pos hS, hrpk]
        have h1 : pdiv (some (0 : ℚ))
            (some (psum ((ts.map (quantifyAllRow bam)).map rowRpk))) = some 0 := by
          show (if psum ((ts.map (quantifyAllRow bam)).map rowRpk) = 0 then (none : Option ℚ)
            else some (0 / psum ((ts.map (quantifyAllRow bam)).map rowRpk))) = some 0
          rw [if_neg (ne_of_gt hS), zero_div]
        rw [h1]
        show some ((0 : ℚ) * 1000000) = some 0
        rw [zero_mul]
      · rw [if_neg hS]
    · by_cases hT : 0 < ((ts.map (quantifyAllRow bam)).map QuantRow.count).sum
      · rw [if_pos hT, hrpk]
        have hne2 : ((ts.map (quantifyAllRow bam)).map QuantRow.count).sum / 1000000 ≠ 0 :=
          div_ne_zero (ne_of_gt hT) (by norm_num)
        show (if ((ts.map (quantifyAllRow bam)).map QuantRow.count).sum / 1000000 = 0
            then (none : Option ℚ)
            else some (0 / (((ts.map (quantifyAllRow bam)).map QuantRow.count).sum / 1000000))) =
          some 0
        rw [if_neg hne2, zero_div]
      · rw [if_neg hT]

/-- Witness for the amended C6 at the concrete both-failing read source. -/
theorem c6_witness :
    (ExpressionQuantifier.quantify_all c6BothFailBam c6WitnessTs).length =
        c6WitnessTs.length ∧
      ∃ row, (ExpressionQuantifier.quantify_all c6BothFailBam c6WitnessTs)[0]? = some row ∧
        row.count = 0 ∧ row.coverage = 0 ∧ row.tpm = some 0 ∧ row.fpkm = some 0 :=
  c6_zero_record_on_failure c6BothFailBam c6WitnessTs 0 c6Transcript
    "count failed" "pileup failed" rfl rfl rfl (by decide)

/-! Missing-attribute handling (claim C8). -/

/-- Counterexample to claim C8 as stated: the quantification loader
(`_load_gtf`) leaves the missing `gene_id` as a null cell (pandas NaN,
here `none`), not an explicit sentinel string. -/
theorem c8_counterexample :
    (ExpressionQuantifier._load_gtf [c8Row]).map TranscriptRec.gene_id = [none] := by
  decide

/-- Claim C8 (amended): in the annotation path every missing attribute is
replaced by `safe_get_attribute`'s sentinel default and no exception is
raised — on the concrete row lacking `gene_id`, the annotation record's
`gene_id` is the sentinel `"None"` while `transcript_id` is parsed as
`"TX1"`; the quantification loader also never raises, but it leaves the
missing attribute as a null cell rather than a sentinel string. -/
theorem c8_missing_attribute_sentinel :
    (∀ (attrs : List (String × String)) (key dflt : String),
      alistLookup attrs key = none → safe_get_attribute attrs key dflt = dflt) ∧
    (TEAnnotator._annotate_transcript GenomeIntervalHandler.init c8Row).gene_id = "None" ∧
    (TEAnnotator._annotate_transcript GenomeIntervalHandler.init c8Row).transcript_id = "TX1" ∧
    (ExpressionQuantifier._load_gtf [c8Row]).map TranscriptRec.transcript_id = [some "TX1"] := by
  refine ⟨?_, by decide, by decide, by decide⟩
  intro attrs key dflt h
  unfold safe_get_attribute
  rw [h]
  rfl

/-- Witness for the amended C8: the sentinel lookup at the concrete
attribute string. -/
theorem c8_witness :
    safe_get_attribute (parse_gtf_attributes ("transcript_id \"TX1\";"))
      ("gene_id") ("None") = "None" :=
  c8_missing_attribute_sentinel.1
    (parse_gtf_attributes ("transcript_id \"TX1\";")) ("gene_id") ("None")
    (by decide)

/-! Coordinate conversion (claim C9). -/

/-- Counterexample to claim C9 as stated: the annotation path queries TE
overlaps at the source start (10) unchanged, so it reports 0 overlaps for
this transcript, although the same index queried at `start - 1` (the
0-based position the claim prescribes) finds the TE. -/
theorem c9_counterexample :
    (TEAnnotator._annotate_transcript c9Handler c9Row).n_te_overlaps = 0 ∧
    ((c9Handler.find_overlaps "c" (c9Row.start - 1) c9Row.«end» (some "+")).1).length = 1 := by
  decide

/-- Claim C9 (amended): the 1-based→0-based conversion happens only in the
quantification path — `_quantify_transcript` records `start - 1` and both
read counting and coverage run over `[start - 1, end)` — while the
annotation path (`_annotate_transcript`) queries TE overlaps and the
promoter check at the source start unchanged. -/
theorem c9_start_conversion :
    (∀ (bam : BamModel) (t : TranscriptRec),
      (ExpressionQuantifier._quantify_transcript bam t).start = t.start - 1 ∧
      (ExpressionQuantifier._quantify_transcript bam t).count =
        (match bam.count t.seqname (t.start - 1) t.«end» with
          | .ok c => c
          | .error _ => 0) ∧
      (ExpressionQuantifier._quantify_transcript bam t).coverage =
        ExpressionQuantifier._calculate_coverage bam t.seqname (t.start - 1) t.«end») ∧
    (∀ (h : GenomeIntervalHandler) (row : GtfRow),
      (TEAnnotator._annotate_transcript h row).start = row.start ∧
      (TEAnnotator._annotate_transcript h row).n_te_overlaps =
        ((h.find_overlaps row.seqname row.start row.«end» (some row.strand)).1).length ∧
      (TEAnnotator._annotate_transcript h row).has_te_promoter =
        TEAnnotator._check_te_promoter h row.seqname row.start row.strand 2000) :=
  ⟨fun _ _ => ⟨rfl, rfl, rfl⟩, fun _ _ => ⟨rfl, rfl, rfl⟩⟩
